import Mathlib

/-!
# Verification of the balpan loader library (`src/lib.rs`)

Shallow embedding of the configuration-merge algorithm
(`merge_toml_values`, `toml_array_value`, `toml_table_value`), the runtime
directory resolution (`prioritize_runtime_dirs`, `find_runtime_file`,
`runtime_file`), and the config-file singleton
(`initialize_config_file`, `config_file`), together with spec-modelled
definitions of the text patcher and definition locator (whose source is not
part of the library crate under verification; only their integration tests
are), and theorems settling the specified claims.
-/

set_option autoImplicit false

namespace Balpan

/-- Embedding of `toml::Value`.  Tables (`toml::map::Map`) are modelled as
association lists with unique keys; the variants not exercised by the merge
algorithm (float, datetime) are omitted — the algorithm treats every
non-array, non-table value uniformly through its catch-all arm, so `str`,
`int` and `bool` cover the scalar behaviour. -/
inductive Value where
  | str : String → Value
  | int : Int → Value
  | bool : Bool → Value
  | array : List Value → Value
  | table : List (String × Value) → Value

/-- Embedding of `Map::get(&k)` / `toml::Value::get` on a table: the value at
the first entry whose key is `k` (keys are unique in a real `Map`). -/
def tlookup (k : String) : List (String × Value) → Option Value
  | [] => none
  | (k', v) :: rest => if k' = k then some v else tlookup k rest

/-- `fn get_name(v: &Value) -> Option<&str>`: `v.get("name").and_then(Value::as_str)`.
`Value::get` indexes a table by key; `as_str` succeeds only on strings. -/
def get_name : Value → Option String
  | .table kvs =>
    match tlookup "name" kvs with
    | some (.str s) => some s
    | _ => none
  | _ => none

/-- Embedding of the matched-element extraction in `toml_array_value`:
`left_items.iter().position(|v| get_name(v) == Some(r_name))` followed by
`left_items.remove(l_pos)`.  Returns the first element whose `name` is `n`
together with the list with that element removed, or `none` if no element
matches. -/
def extract_named (n : String) : List Value → Option (Value × List Value)
  | [] => none
  | v :: rest =>
    if get_name v = some n then some (v, rest)
    else
      match extract_named n rest with
      | some (x, rest') => some (x, v :: rest')
      | none => none

/-- Embedding of `Map::remove(&k)`: the value stored at the (unique) key `k`,
if any, together with the map without that entry. -/
def tremove (k : String) : List (String × Value) → Option Value × List (String × Value)
  | [] => (none, [])
  | (k', v) :: rest =>
    if k' = k then (some v, rest)
    else
      let (o, r) := tremove k rest
      (o, (k', v) :: r)

/-- Embedding of `Map::insert(k, v)`: replace the value at `k` if the key is
present, otherwise add the entry. -/
def tinsert (k : String) (v : Value) : List (String × Value) → List (String × Value)
  | [] => [(k, v)]
  | (k', v') :: rest => if k' = k then (k, v) :: rest else (k', v') :: tinsert k v rest

/-- Lookup in a table, mirroring `toml::Value::get` restricted to tables. -/
def vlookup (v : Value) (k : String) : Option Value :=
  match v with
  | .table kvs => tlookup k kvs
  | _ => none

/-- Whether a value is an array (`Value::Array`). -/
def is_array : Value → Bool
  | .array _ => true
  | _ => false

/-- Whether a value is a table (`Value::Table`). -/
def is_table : Value → Bool
  | .table _ => true
  | _ => false

/-- Whether a value is a scalar leaf: neither an array nor a table. -/
def is_scalar (v : Value) : Bool := !is_array v && !is_table v

/-- The loop body of `toml_array_value` for `merge_depth > 0`, iterating the
right-hand items: a right item carrying a `name` matching some accumulator
element removes that element and pushes the recursive merge at the end;
otherwise the right item itself is pushed at the end.  The recursive merge at
`merge_depth - 1` is supplied as `rec`. -/
def array_merge_loop (rec : Value → Value → Value) : List Value → List Value → List Value
  | acc, [] => acc
  | acc, r_val :: rs =>
    match get_name r_val with
    | some r_name =>
      match extract_named r_name acc with
      | some (l_val, acc') => array_merge_loop rec (acc' ++ [rec l_val r_val]) rs
      | none => array_merge_loop rec (acc ++ [r_val]) rs
    | none => array_merge_loop rec (acc ++ [r_val]) rs

/-- The loop body of `toml_table_value` for `merge_depth > 0`, iterating the
right-hand entries: `left_map.remove(&r_name)` then insertion of either the
recursive merge (key present on the left) or the right value (key absent). -/
def table_merge_loop (rec : Value → Value → Value) :
    List (String × Value) → List (String × Value) → List (String × Value)
  | acc, [] => acc
  | acc, (r_name, r_val) :: rs =>
    match tremove r_name acc with
    | (some l_val, acc') => table_merge_loop rec (tinsert r_name (rec l_val r_val) acc') rs
    | (none, _) => table_merge_loop rec (tinsert r_name r_val acc) rs

/-- Embedding of `merge_toml_values(left, right, merge_depth)`.  The
`merge_depth == 0` tests performed inside `toml_array_value` and
`toml_table_value` are inlined here as patterns on the depth so that the
recursion is structural on the depth (every recursive call of the source runs
at `merge_depth - 1`). -/
def merge_toml_values : Value → Value → Nat → Value
  | .array _, .array right_items, 0 => .array right_items
  | .array left_items, .array right_items, d + 1 =>
    .array (array_merge_loop (fun a b => merge_toml_values a b d) left_items right_items)
  | .table _, .table right_map, 0 => .table right_map
  | .table left_map, .table right_map, d + 1 =>
    .table (table_merge_loop (fun a b => merge_toml_values a b d) left_map right_map)
  | _, value, _ => value

/-- `fn toml_array_value(merge_depth, left_items, right_items)` — the
array × array arm of the merge. -/
def toml_array_value (merge_depth : Nat) (left_items right_items : List Value) : Value :=
  merge_toml_values (.array left_items) (.array right_items) merge_depth

/-- `fn toml_table_value(merge_depth, left_map, right_map)` — the
table × table arm of the merge. -/
def toml_table_value (merge_depth : Nat) (left_map right_map : List (String × Value)) : Value :=
  merge_toml_values (.table left_map) (.table right_map) merge_depth

/-! ## Paths and the process environment

Filesystem paths are modelled as lists of components.  `Option`-valued
results model the panics (`unwrap`, `panic!`) of the source: `none` means the
corresponding run of the program aborts. -/

abbrev Path := List String

/-- `PathBuf::join` with a single component. -/
def path_join (p : Path) (c : String) : Path := p ++ [c]

/-- `PathBuf::join` with a relative path. -/
def path_append (p : Path) (rel : Path) : Path := p ++ rel

/-- `Path::parent`: `none` at a root/empty path. -/
def path_parent (p : Path) : Option Path :=
  if p = [] then none else some p.dropLast

/-- The parts of the process environment and host state that the embedded
functions read: the `CARGO_MANIFEST_DIR`, `BALPAN_RUNTIME` and
`BALPAN_CONFIG_DIR` environment variables (`none` = unset), the config
directory produced by `choose_base_strategy` (`none` = no strategy resolves
for the host), and the parent of the canonicalized current-executable path
(`none` = `current_exe`/`canonicalize`/`parent` fails). -/
structure Env where
  cargo_manifest_dir : Option Path
  balpan_runtime : Option Path
  balpan_config_dir : Option Path
  strategy_config_dir : Option Path
  exe_canonical_parent : Option Path

/-- `fn config_dir()` = `get_dir(StrategyType::Config)`: the
`BALPAN_CONFIG_DIR` override when set, otherwise the base strategy's config
directory with `"balpan"` pushed; `none` models the panic when no strategy
resolves. -/
def config_dir (env : Env) : Option Path :=
  match env.balpan_config_dir with
  | some dir => some dir
  | none => env.strategy_config_dir.map (fun p => path_join p "balpan")

/-- `fn prioritize_runtime_dirs() -> Vec<PathBuf>`: sibling `runtime`
directory of `CARGO_MANIFEST_DIR`'s parent when that variable is set, then
`config_dir()/runtime` (always), then the `BALPAN_RUNTIME` directory when
set, then `runtime` next to the canonicalized executable (always).  `none`
models the source's `unwrap` panics (manifest dir without parent, missing
strategy, unresolvable executable path). -/
def prioritize_runtime_dirs (env : Env) : Option (List Path) :=
  let rt_dir : String := "runtime"
  let cargo_dirs : Option (List Path) :=
    match env.cargo_manifest_dir with
    | some dir => (path_parent dir).map (fun path => [path_join path rt_dir])
    | none => some []
  let balpan_dirs : List Path :=
    match env.balpan_runtime with
    | some dir => [dir]
    | none => []
  match cargo_dirs, config_dir env, env.exe_canonical_parent with
  | some cds, some conf_dir, some exe_parent =>
    some (cds ++ [path_join conf_dir rt_dir] ++ balpan_dirs ++ [path_join exe_parent rt_dir])
  | _, _, _ => none

/-- `fn find_runtime_file(rel_path)`: the first directory of the runtime
directory list whose join with `rel_path` exists.  The filesystem's
`Path::exists` is abstracted as the predicate `file_exists`. -/
def find_runtime_file (dirs : List Path) (file_exists : Path → Bool) (rel_path : Path) :
    Option Path :=
  dirs.findSome? (fun rt_dir =>
    let path := path_append rt_dir rel_path
    if file_exists path then some path else none)

/-- `fn runtime_file(rel_path)`: the found file, or the join of the last
runtime directory with `rel_path` (`unwrap_or_default` yields the empty path
when the directory list is empty). -/
def runtime_file (dirs : List Path) (file_exists : Path → Bool) (rel_path : Path) : Path :=
  match find_runtime_file dirs file_exists rel_path with
  | some path => path
  | none => ((dirs.getLast?).map (fun dir => path_append dir rel_path)).getD []

/-! ## The `CONFIG_FILE` once-cell

`CONFIG_FILE : OnceCell<PathBuf>` is modelled as an explicit state of type
`Option Path` threaded through the two functions that touch it. -/

/-- Embedding of `fn initialize_config_file(specified_file: Option<PathBuf>)`:
computes the config file path (the given path, or
`config_dir().join("config.toml")`), then `CONFIG_FILE.set(path).ok()` —
the state is written only when it is still unset.  The result is the new
state; the outer `none` models the panic of `config_dir()` when no strategy
resolves (only reachable when no file is specified). -/
def init_config_file (env : Env) (specified_file : Option Path) (st : Option Path) :
    Option (Option Path) :=
  let new_file : Option Path :=
    match specified_file with
    | some file => some file
    | none => (config_dir env).map (fun dir => path_join dir "config.toml")
  new_file.map (fun cf => some (st.getD cf))

/-- `fn config_file() -> PathBuf`: the once-cell's value when set, otherwise
`config_dir().join("config.toml")` recomputed on the fly; the outer `none`
models the `config_dir()` panic in the fallback. -/
def config_file (env : Env) (st : Option Path) : Option Path :=
  match st with
  | some path => some path
  | none => (config_dir env).map (fun dir => path_join dir "config.toml")

/-! ## Text patcher and definition locator (spec-modelled)

The analyzer/patcher modules are declared by the crate but their source is
not part of the library file under verification; only their integration
tests are.  The definitions below are therefore modelled from the spec, at
line granularity. -/

/-- Modelled from the spec: a `DefinitionSite` as consumed by the patcher —
the anchor (here: the index of the anchor line) and the verbatim
indentation string copied from the anchor line.  Missing source:
`analyzer` module (definition locator / patcher). -/
structure Site where
  anchor : Nat
  indent : String
  deriving DecidableEq

/-- Modelled from the spec: the inserted marker line — the site's
indentation string, the language's comment token, and the fixed marker
payload `[TODO]` (as exercised by the integration tests).  Missing source:
`analyzer` module. -/
def marker_line (comment_token : String) (s : Site) : String :=
  s.indent ++ comment_token ++ " [TODO]"

/-- Modelled from the spec: `apply(original_text, sites) -> annotated_text` —
per site one marker line inserted immediately before the anchor line, sites
applied from highest anchor to lowest (the fold from the right over the
ascending site list).  Missing source: `analyzer` module (text patcher). -/
def patcher_apply (comment_token : String) (original : List String) (sites : List Site) :
    List String :=
  sites.foldr (fun s acc => acc.insertIdx s.anchor (marker_line comment_token s)) original

/-- Modelled from the spec: identification of an inserted marker line by the
fixed marker payload — the line ends with `[TODO]`.  Missing source:
`analyzer` module. -/
def is_marker_line (line : String) : Bool :=
  decide ("[TODO]".data <:+ line.data)

/-- The verbatim leading-whitespace string of a line. -/
def leading_ws (line : String) : String :=
  String.mk (line.data.takeWhile (fun c => c = ' '))

/-- The characters of a line with its leading whitespace removed. -/
def line_body (line : String) : List Char :=
  line.data.dropWhile (fun c => c = ' ')

/-- Modelled from the spec: whether a line opens a Python definition
(class / function / method).  Plain statements (assignments, expressions)
never produce sites.  Missing source: `language` module (definition query). -/
def is_definition_line (line : String) : Bool :=
  "class ".data.isPrefixOf (line_body line) || "def ".data.isPrefixOf (line_body line)

/-- Modelled from the spec: whether a line is a binding decorator line.
Missing source: `language` module (definition query). -/
def is_decorator_line (line : String) : Bool :=
  "@".data.isPrefixOf (line_body line)

/-- Modelled from the spec: the anchor of a definition found at line `i` —
walk upward over the immediately preceding decorator lines, so the anchor is
the first decorator's line when the definition is decorated, the
definition's own line otherwise.  Missing source: `analyzer` module. -/
def anchor_of (lines : List String) : Nat → Nat
  | 0 => 0
  | i + 1 => if is_decorator_line (lines.getD i "") then anchor_of lines i else i + 1

/-- Modelled from the spec: `locate(tree, language)` — one site per
definition line, ordered by position, the anchor hoisted above preceding
decorators, the indentation copied verbatim from the anchor line.  Missing
source: `analyzer` module (definition locator). -/
def locate (lines : List String) : List Site :=
  (List.range lines.length).filterMap (fun i =>
    if is_definition_line (lines.getD i "") then
      some ⟨anchor_of lines i, leading_ws (lines.getD (anchor_of lines i) "")⟩
    else none)

/-- Modelled from the spec: the end-to-end annotation of one buffer —
locate the definition sites, then patch the text.  Missing source:
`analyzer` module (orchestrator). -/
def annotate (comment_token : String) (lines : List String) : List String :=
  patcher_apply comment_token lines (locate lines)

/-! ## Helper lemmas about the merge -/

theorem toml_array_value_zero (l r : List Value) : toml_array_value 0 l r = .array r := rfl

theorem toml_array_value_succ (d : Nat) (l r : List Value) :
    toml_array_value (d + 1) l r =
      .array (array_merge_loop (fun a b => merge_toml_values a b d) l r) := rfl

theorem toml_table_value_zero (l r : List (String × Value)) :
    toml_table_value 0 l r = .table r := rfl

theorem toml_table_value_succ (d : Nat) (l r : List (String × Value)) :
    toml_table_value (d + 1) l r =
      .table (table_merge_loop (fun a b => merge_toml_values a b d) l r) := rfl

theorem merge_right_scalar (l r : Value) (d : Nat) (h : is_scalar r = true) :
    merge_toml_values l r d = r := by
  cases l <;> cases r <;> cases d <;>
    simp_all [is_scalar, is_array, is_table, merge_toml_values]

theorem tlookup_tinsert_self (k : String) (v : Value) (m : List (String × Value)) :
    tlookup k (tinsert k v m) = some v := by
  induction m with
  | nil => simp [tinsert, tlookup]
  | cons e rest ih =>
    obtain ⟨k', v'⟩ := e
    by_cases h : k' = k <;> simp [tinsert, tlookup, h, ih]

theorem tlookup_tinsert_ne (k k' : String) (v : Value) (m : List (String × Value))
    (h : k' ≠ k) : tlookup k (tinsert k' v m) = tlookup k m := by
  induction m with
  | nil => simp [tinsert, tlookup, h]
  | cons e rest ih =>
    obtain ⟨k'', v''⟩ := e
    by_cases h2 : k'' = k' <;> by_cases h3 : k'' = k <;>
      simp_all [tinsert, tlookup]

theorem tremove_fst (k : String) (m : List (String × Value)) :
    (tremove k m).1 = tlookup k m := by
  induction m with
  | nil => simp [tremove, tlookup]
  | cons e rest ih =>
    obtain ⟨k', v⟩ := e
    by_cases h : k' = k <;> simp [tremove, tlookup, h, ih]

theorem tlookup_tremove_snd_ne (k k' : String) (m : List (String × Value))
    (h : k' ≠ k) : tlookup k (tremove k' m).2 = tlookup k m := by
  induction m with
  | nil => simp [tremove, tlookup]
  | cons e rest ih =>
    obtain ⟨k'', v⟩ := e
    by_cases h2 : k'' = k' <;> by_cases h3 : k'' = k <;>
      simp_all [tremove, tlookup]

theorem table_merge_loop_lookup_preserve (rec : Value → Value → Value) (k : String)
    (rs : List (String × Value)) :
    ∀ acc : List (String × Value), (∀ e ∈ rs, e.1 ≠ k) →
      tlookup k (table_merge_loop rec acc rs) = tlookup k acc := by
  induction rs with
  | nil => intro acc _; rfl
  | cons e rs' ih =>
    intro acc h
    obtain ⟨k', rv⟩ := e
    have hk' : k' ≠ k := h (k', rv) (List.mem_cons_self _ _)
    have h' : ∀ e ∈ rs', e.1 ≠ k := fun e he => h e (List.mem_cons_of_mem _ he)
    rcases htr : tremove k' acc with ⟨o, acc'⟩
    have hacc' : acc' = (tremove k' acc).2 := by rw [htr]
    cases o with
    | some lv =>
      rw [show table_merge_loop rec acc ((k', rv) :: rs') =
            table_merge_loop rec (tinsert k' (rec lv rv) acc') rs' by
          simp [table_merge_loop, htr]]
      rw [ih _ h', tlookup_tinsert_ne _ _ _ _ hk', hacc',
        tlookup_tremove_snd_ne _ _ _ hk']
    | none =>
      rw [show table_merge_loop rec acc ((k', rv) :: rs') =
            table_merge_loop rec (tinsert k' rv acc) rs' by
          simp [table_merge_loop, htr]]
      rw [ih _ h', tlookup_tinsert_ne _ _ _ _ hk']

theorem table_merge_loop_lookup (rec : Value → Value → Value) (k : String)
    (rs : List (String × Value)) :
    ∀ acc : List (String × Value), (rs.map Prod.fst).Nodup →
      tlookup k (table_merge_loop rec acc rs) =
        match tlookup k rs with
        | some rv =>
          some (match tlookup k acc with
            | some lv => rec lv rv
            | none => rv)
        | none => tlookup k acc := by
  induction rs with
  | nil => intro acc _; rfl
  | cons e rs' ih =>
    intro acc hnd
    obtain ⟨k', rv⟩ := e
    simp only [List.map_cons, List.nodup_cons] at hnd
    obtain ⟨hknotin, hnd'⟩ := hnd
    rcases htr : tremove k' acc with ⟨o, acc'⟩
    have hfst := tremove_fst k' acc
    rw [htr] at hfst
    have hacc' : acc' = (tremove k' acc).2 := by rw [htr]
    by_cases hk : k' = k
    · subst hk
      have hne : ∀ e ∈ rs', e.1 ≠ k' := by
        intro e he
        intro hcontra
        exact hknotin (hcontra ▸ List.mem_map_of_mem Prod.fst he)
      cases o with
      | some lv =>
        rw [show table_merge_loop rec acc ((k', rv) :: rs') =
              table_merge_loop rec (tinsert k' (rec lv rv) acc') rs' by
            simp [table_merge_loop, htr]]
        rw [table_merge_loop_lookup_preserve rec k' rs' _ hne,
          tlookup_tinsert_self]
        simp [tlookup, ← hfst]
      | none =>
        rw [show table_merge_loop rec acc ((k', rv) :: rs') =
              table_merge_loop rec (tinsert k' rv acc) rs' by
            simp [table_merge_loop, htr]]
        rw [table_merge_loop_lookup_preserve rec k' rs' _ hne,
          tlookup_tinsert_self]
        simp [tlookup, ← hfst]
    · have hstep : tlookup k ((k', rv) :: rs') = tlookup k rs' := by
        simp [tlookup, hk]
      cases o with
      | some lv =>
        rw [show table_merge_loop rec acc ((k', rv) :: rs') =
              table_merge_loop rec (tinsert k' (rec lv rv) acc') rs' by
            simp [table_merge_loop, htr]]
        rw [ih _ hnd', hstep, tlookup_tinsert_ne _ _ _ _ hk, hacc',
          tlookup_tremove_snd_ne _ _ _ hk]
      | none =>
        rw [show table_merge_loop rec acc ((k', rv) :: rs') =
              table_merge_loop rec (tinsert k' rv acc) rs' by
            simp [table_merge_loop, htr]]
        rw [ih _ hnd', hstep, tlookup_tinsert_ne _ _ _ _ hk]

theorem array_merge_loop_nameless (rec : Value → Value → Value) (rs : List Value) :
    ∀ acc : List Value, (∀ v ∈ rs, get_name v = none) →
      array_merge_loop rec acc rs = acc ++ rs := by
  induction rs with
  | nil => intro acc _; simp [array_merge_loop]
  | cons rv rs' ih =>
    intro acc h
    have hrv : get_name rv = none := h rv (List.mem_cons_self _ _)
    have h' : ∀ v ∈ rs', get_name v = none := fun v hv => h v (List.mem_cons_of_mem _ hv)
    rw [show array_merge_loop rec acc (rv :: rs') =
          array_merge_loop rec (acc ++ [rv]) rs' by
        simp [array_merge_loop, hrv]]
    rw [ih _ h']
    simp

/-! ## Helper lemmas about the patcher -/

theorem sublist_insertIdx {α : Type} (x : α) :
    ∀ (i : Nat) (l : List α), l.Sublist (l.insertIdx i x) := by
  intro i
  induction i with
  | zero => intro l; simp [List.insertIdx_zero]
  | succ i ih =>
    intro l
    cases l with
    | nil => simp [List.insertIdx_succ_nil]
    | cons a l' =>
      rw [List.insertIdx_succ_cons]
      exact List.Sublist.cons₂ a (ih l')

theorem filter_insertIdx_neg {α : Type} (p : α → Bool) (x : α) (hx : p x = false) :
    ∀ (i : Nat) (l : List α), (l.insertIdx i x).filter p = l.filter p := by
  intro i
  induction i with
  | zero => intro l; simp [List.insertIdx_zero, List.filter_cons, hx]
  | succ i ih =>
    intro l
    cases l with
    | nil => simp [List.insertIdx_succ_nil]
    | cons a l' =>
      rw [List.insertIdx_succ_cons]
      simp [List.filter_cons, ih]

theorem is_marker_line_marker (comment_token : String) (s : Site) :
    is_marker_line (marker_line comment_token s) = true := by
  simp only [is_marker_line, marker_line, decide_eq_true_eq]
  rw [String.data_append, String.data_append]
  have h : " [TODO]".data = [' '] ++ "[TODO]".data := rfl
  rw [h]
  exact (List.suffix_append [' '] "[TODO]".data).trans
    (List.suffix_append (s.indent.data ++ comment_token.data) ([' '] ++ "[TODO]".data))

/-! ## Helper lemma about the runtime directory list -/

theorem prioritize_runtime_dirs_eq (env : Env) (dirs : List Path)
    (h : prioritize_runtime_dirs env = some dirs) :
    ∃ (cds bds : List Path) (conf_dir exe_parent : Path),
      env.exe_canonical_parent = some exe_parent ∧
      dirs = cds ++ [path_join conf_dir "runtime"] ++ bds ++
        [path_join exe_parent "runtime"] := by
  simp only [prioritize_runtime_dirs] at h
  split at h
  · rename_i cds conf_dir exe_parent hcds hconf hexe
    simp only [Option.some.injEq] at h
    exact ⟨cds, _, conf_dir, exe_parent, hexe, h.symm⟩
  · exact absurd h (by simp)

/-! ## Claims -/

/-- C3: for every pair of arrays, `merge_toml_values(left, right, 0)` returns
the right array unchanged, regardless of the contents of the left array. -/
theorem C3_array_depth_zero_right_wins (l r : List Value) :
    merge_toml_values (.array l) (.array r) 0 = .array r := rfl

/-- C4: a left/right pair that is not array × array and not table × table is
merged by taking the right value outright at every depth; consequently, when
the overlay table holds a scalar value `v` at key `k`, the merged document
holds `v` at `k` at every merge depth, whatever the base holds at `k`. -/
theorem C4_scalar_right_wins :
    (∀ (l r : Value) (d : Nat),
      (is_array l && is_array r) = false → (is_table l && is_table r) = false →
      merge_toml_values l r d = r) ∧
    (∀ (b o : List (String × Value)) (k : String) (v : Value) (d : Nat),
      (o.map Prod.fst).Nodup → tlookup k o = some v → is_scalar v = true →
      vlookup (merge_toml_values (.table b) (.table o) d) k = some v) := by
  constructor
  · intro l r d h1 h2
    cases l <;> cases r <;> simp_all [is_array, is_table, merge_toml_values]
  · intro b o k v d hnd hlk hs
    cases d with
    | zero => simp [merge_toml_values, vlookup, hlk]
    | succ d' =>
      have hloop := table_merge_loop_lookup (fun a b => merge_toml_values a b d') k o b hnd
      simp only [merge_toml_values, vlookup]
      rw [hloop, hlk]
      cases hb : tlookup k b with
      | none => rfl
      | some lv => simp [merge_right_scalar lv v d' hs]

/-- C4 witness: a scalar overlay value survives a depth-3 merge. -/
theorem C4_scalar_right_wins_witness :
    vlookup (merge_toml_values (.table [("k", .int 1)]) (.table [("k", .int 5)]) 3) "k"
      = some (.int 5) :=
  C4_scalar_right_wins.2 [("k", .int 1)] [("k", .int 5)] "k" (.int 5) 3
    (by simp) rfl rfl

/-- C2 counterexample: at merge depth 0 the right table replaces the left
wholesale, so a key absent from the right table does not keep the left
table's value — the claim's "at any depth" fails at depth 0. -/
theorem C2_depth_zero_counterexample :
    vlookup (merge_toml_values (.table [("a", .int 1)]) (.table [("b", .int 2)]) 0) "a" ≠
      tlookup "a" [("a", .int 1)] := by
  simp [merge_toml_values, vlookup, tlookup]

/-- C2 (amended): at merge depth > 0, two tables merge to the union of their
key sets — a key present in both maps to the recursive merge of the two
values at depth-1, and a key present in only one side keeps that side's
value; at depth 0 the right table replaces the left wholesale. -/
theorem C2_table_union_amended :
    (∀ (l r : List (String × Value)) (d : Nat) (k : String),
      (r.map Prod.fst).Nodup →
      vlookup (merge_toml_values (.table l) (.table r) (d + 1)) k =
        match tlookup k r with
        | some rv =>
          some (match tlookup k l with
            | some lv => merge_toml_values lv rv d
            | none => rv)
        | none => tlookup k l) ∧
    (∀ l r : List (String × Value), merge_toml_values (.table l) (.table r) 0 = .table r) := by
  constructor
  · intro l r d k hnd
    have hloop := table_merge_loop_lookup (fun a b => merge_toml_values a b d) k r l hnd
    simpa [merge_toml_values, vlookup] using hloop
  · intro l r; rfl

/-- C2 witness: a key absent from the overlay keeps the base value at
depth 1. -/
theorem C2_table_union_amended_witness :
    vlookup (merge_toml_values (.table [("x", .int 1), ("y", .int 2)])
      (.table [("y", .int 3)]) 1) "x" = some (.int 1) := by
  have h := C2_table_union_amended.1 [("x", .int 1), ("y", .int 2)] [("y", .int 3)] 0 "x"
    (by simp)
  simpa [tlookup] using h

/-- C1 counterexample: merging `[{name="a"}, {name="b"}]` with `[{name="a"}]`
at depth 1 — the matched pair's merge is *not* placed at the left element's
original position (index 0); the matched left element is removed and the
merged value is appended after the unmatched left elements. -/
theorem C1_in_place_counterexample :
    merge_toml_values
        (.array [.table [("name", .str "a")], .table [("name", .str "b")]])
        (.array [.table [("name", .str "a")]]) 1 =
      .array [.table [("name", .str "b")],
        merge_toml_values (.table [("name", .str "a")]) (.table [("name", .str "a")]) 0] ∧
    merge_toml_values
        (.array [.table [("name", .str "a")], .table [("name", .str "b")]])
        (.array [.table [("name", .str "a")]]) 1 ≠
      .array [merge_toml_values (.table [("name", .str "a")]) (.table [("name", .str "a")]) 0,
        .table [("name", .str "b")]] := by
  constructor
  · rfl
  · simp [merge_toml_values, array_merge_loop, extract_named, get_name, tlookup]

/-- C1 (amended): at depth > 0, the right items are processed in order; a
right item carrying a `name` matching some left element merges with the
first such element at depth-1, the matched left element being removed and
the merged value appended at the end of the working list; unmatched right
items and right items without a `name` are simply appended, duplicates
included; merging `[{name="nix", a=1}]` with `[{name="nix", b=2}]` (depth 2)
yields the single table carrying `name`, `a` and `b`. -/
theorem C1_array_merge_amended :
    (∀ (d : Nat) (l : List Value) (rv : Value) (rs : List Value),
      toml_array_value (d + 1) l (rv :: rs) =
        match get_name rv with
        | some r_name =>
          match extract_named r_name l with
          | some (lv, l') => toml_array_value (d + 1) (l' ++ [merge_toml_values lv rv d]) rs
          | none => toml_array_value (d + 1) (l ++ [rv]) rs
        | none => toml_array_value (d + 1) (l ++ [rv]) rs) ∧
    (∀ (d : Nat) (l r : List Value), (∀ v ∈ r, get_name v = none) →
      toml_array_value (d + 1) l r = .array (l ++ r)) ∧
    (toml_array_value 2 [.table [("name", .str "nix"), ("a", .int 1)]]
        [.table [("name", .str "nix"), ("b", .int 2)]] =
      .array [.table [("a", .int 1), ("name", .str "nix"), ("b", .int 2)]]) := by
  refine ⟨?_, ?_, rfl⟩
  · intro d l rv rs
    cases h : get_name rv with
    | none => simp [toml_array_value_succ, array_merge_loop, h]
    | some r_name =>
      cases h2 : extract_named r_name l with
      | none => simp [toml_array_value_succ, array_merge_loop, h, h2]
      | some p =>
        obtain ⟨lv, l'⟩ := p
        simp [toml_array_value_succ, array_merge_loop, h, h2]
  · intro d l r h
    rw [toml_array_value_succ, array_merge_loop_nameless _ _ _ h]

/-- C1 witness: name-less right elements are appended, duplicates included. -/
theorem C1_array_merge_amended_witness :
    (∀ v ∈ [Value.int 7, Value.int 7], get_name v = none) ∧
    toml_array_value 1 [.int 7] [.int 7, .int 7] = .array [.int 7, .int 7, .int 7] := by
  have hnames : ∀ v ∈ [Value.int 7, Value.int 7], get_name v = none := by
    intro v hv
    rcases List.mem_cons.mp hv with rfl | hv'
    · rfl
    · rw [List.mem_singleton] at hv'; subst hv'; rfl
  exact ⟨hnames, C1_array_merge_amended.2.1 0 [.int 7] [.int 7, .int 7] hnames⟩

/-- C5: whenever `prioritize_runtime_dirs` returns a list (i.e. the process
does not panic), the list has length at least 2, its last entry is the
last-resort runtime directory next to the canonicalized executable, and the
list is uniquely determined by the environment. -/
theorem C5_runtime_dirs_length_and_det (env : Env) (dirs : List Path)
    (h : prioritize_runtime_dirs env = some dirs) :
    2 ≤ dirs.length ∧
    (∃ exe_parent, env.exe_canonical_parent = some exe_parent ∧
      dirs.getLast? = some (path_join exe_parent "runtime")) ∧
    (∀ dirs', prioritize_runtime_dirs env = some dirs' → dirs' = dirs) := by
  obtain ⟨cds, bds, conf_dir, exe_parent, hexe, hdirs⟩ := prioritize_runtime_dirs_eq env dirs h
  refine ⟨?_, ⟨exe_parent, hexe, ?_⟩, ?_⟩
  · subst hdirs; simp; omega
  · subst hdirs
    rw [show cds ++ [path_join conf_dir "runtime"] ++ bds ++ [path_join exe_parent "runtime"]
        = (cds ++ [path_join conf_dir "runtime"] ++ bds) ++ [path_join exe_parent "runtime"]
      by simp]
    exact List.getLast?_concat _
  · intro dirs' h'
    exact Option.some.inj (h'.symm.trans h)

/-- C5 witness: a minimal environment (no `CARGO_MANIFEST_DIR`, no
`BALPAN_RUNTIME`, a config-dir override) yields exactly the two
always-present entries. -/
theorem C5_runtime_dirs_witness :
    prioritize_runtime_dirs ⟨none, none, some ["cfg"], none, some ["bin"]⟩ =
      some [["cfg", "runtime"], ["bin", "runtime"]] ∧
    2 ≤ ([["cfg", "runtime"], ["bin", "runtime"]] : List Path).length :=
  ⟨rfl, (C5_runtime_dirs_length_and_det ⟨none, none, some ["cfg"], none, some ["bin"]⟩
    [["cfg", "runtime"], ["bin", "runtime"]] rfl).1⟩

/-- The first directory whose joined candidate exists wins in
`find_runtime_file`. -/
theorem find_runtime_file_first (file_exists : Path → Bool) (rel_path : Path)
    (l₁ : List Path) :
    ∀ (d : Path) (l₂ : List Path),
      (∀ d' ∈ l₁, file_exists (path_append d' rel_path) = false) →
      file_exists (path_append d rel_path) = true →
      find_runtime_file (l₁ ++ d :: l₂) file_exists rel_path =
        some (path_append d rel_path) := by
  induction l₁ with
  | nil =>
    intro d l₂ _ hd
    simp [find_runtime_file, List.findSome?_cons, hd]
  | cons d' l₁' ih =>
    intro d l₂ h hd
    have hd' : file_exists (path_append d' rel_path) = false :=
      h d' (List.mem_cons_self _ _)
    have h' : ∀ e ∈ l₁', file_exists (path_append e rel_path) = false :=
      fun e he => h e (List.mem_cons_of_mem _ he)
    have := ih d l₂ h' hd
    simpa [find_runtime_file, List.findSome?_cons, hd'] using this

/-- When no candidate exists, `find_runtime_file` returns `none`. -/
theorem find_runtime_file_none (file_exists : Path → Bool) (rel_path : Path)
    (dirs : List Path)
    (h : ∀ d ∈ dirs, file_exists (path_append d rel_path) = false) :
    find_runtime_file dirs file_exists rel_path = none := by
  induction dirs with
  | nil => rfl
  | cons d ds ih =>
    have hd : file_exists (path_append d rel_path) = false := h d (List.mem_cons_self _ _)
    have h' : ∀ e ∈ ds, file_exists (path_append e rel_path) = false :=
      fun e he => h e (List.mem_cons_of_mem _ he)
    simpa [find_runtime_file, List.findSome?_cons, hd] using ih h'

/-- C6: `runtime_file` returns the candidate under the first directory, in
priority order, whose joined path exists; when no candidate exists it
returns the join of the last (lowest-priority) directory with the relative
path. -/
theorem C6_runtime_file_resolution (file_exists : Path → Bool) (rel_path : Path) :
    (∀ (l₁ : List Path) (d : Path) (l₂ : List Path),
      (∀ d' ∈ l₁, file_exists (path_append d' rel_path) = false) →
      file_exists (path_append d rel_path) = true →
      runtime_file (l₁ ++ d :: l₂) file_exists rel_path = path_append d rel_path) ∧
    (∀ (dirs : List Path) (dl : Path),
      (∀ d ∈ dirs, file_exists (path_append d rel_path) = false) →
      dirs.getLast? = some dl →
      runtime_file dirs file_exists rel_path = path_append dl rel_path) := by
  constructor
  · intro l₁ d l₂ h hd
    rw [runtime_file, find_runtime_file_first file_exists rel_path l₁ d l₂ h hd]
  · intro dirs dl h hlast
    rw [runtime_file, find_runtime_file_none file_exists rel_path dirs h, hlast]
    rfl

/-- C6 witness: with only the second candidate existing, the lookup skips
the first directory; the fallback branch is exercised through the theorem's
second conjunct on a filesystem with no candidate. -/
theorem C6_runtime_file_resolution_witness :
    runtime_file [["a"], ["b"]] (fun p => decide (p = ["b", "f"])) ["f"] = ["b", "f"] ∧
    runtime_file [["a"], ["b"]] (fun _ => false) ["f"] = ["b", "f"] := by
  constructor
  · exact (C6_runtime_file_resolution (fun p => decide (p = ["b", "f"])) ["f"]).1
      [["a"]] ["b"] []
      (by intro d' hd'; rw [List.mem_singleton] at hd'; subst hd'; rfl) rfl
  · exact (C6_runtime_file_resolution (fun _ => false) ["f"]).2 [["a"], ["b"]] ["b"]
      (by intro d _; rfl) rfl

/-- C7: the patcher's output contains the original lines unchanged and in
order (a sublist), adds exactly one marker line per site, and — provided the
original text carries no marker payload of its own — deleting every marker
line reconstructs the original text exactly. -/
theorem C7_patcher_preserves_original (comment_token : String) (original : List String)
    (sites : List Site)
    (hanchor : ∀ s ∈ sites, s.anchor ≤ original.length)
    (hclean : ∀ line ∈ original, is_marker_line line = false) :
    original.Sublist (patcher_apply comment_token original sites) ∧
    (patcher_apply comment_token original sites).length = original.length + sites.length ∧
    (patcher_apply comment_token original sites).filter
      (fun line => !is_marker_line line) = original := by
  revert hanchor
  induction sites with
  | nil =>
    intro _
    refine ⟨List.Sublist.refl _, rfl, ?_⟩
    exact List.filter_eq_self.mpr (fun line hl => by simp [hclean line hl])
  | cons s ss ih =>
    intro hanchor
    have hanchor' : ∀ t ∈ ss, t.anchor ≤ original.length :=
      fun t ht => hanchor t (List.mem_cons_of_mem _ ht)
    obtain ⟨ihsub, ihlen, ihfil⟩ := ih hanchor'
    have happ : patcher_apply comment_token original (s :: ss) =
        (patcher_apply comment_token original ss).insertIdx s.anchor
          (marker_line comment_token s) := rfl
    have hle : s.anchor ≤ (patcher_apply comment_token original ss).length := by
      rw [ihlen]
      exact le_trans (hanchor s (List.mem_cons_self _ _)) (Nat.le_add_right _ _)
    refine ⟨?_, ?_, ?_⟩
    · rw [happ]
      exact ihsub.trans (sublist_insertIdx _ _ _)
    · rw [happ, List.length_insertIdx _ _ hle, ihlen, List.length_cons]
      omega
    · rw [happ, filter_insertIdx_neg _ _ (by simp [is_marker_line_marker]) _ _, ihfil]

/-- C7 witness: one site at the top of a one-line file. -/
theorem C7_patcher_preserves_original_witness :
    (patcher_apply "#" ["x"] [⟨0, ""⟩]).filter (fun line => !is_marker_line line) = ["x"] :=
  (C7_patcher_preserves_original "#" ["x"] [⟨0, ""⟩]
    (by intro s hs; rw [List.mem_singleton] at hs; subst hs; exact Nat.zero_le _)
    (by intro line hl; rw [List.mem_singleton] at hl; subst hl; rfl)).2.2

/-- C8: on the Django fixture (a `class Car(models.Model):` with three field
assignments and a nested `class Meta:`), the pipeline finds exactly two
sites — the outer class anchored at line 0 with no indentation and the
nested class anchored at line 5 with its own indentation — and the annotated
output inserts exactly the two marker lines there, all other lines
unchanged; the plain assignment statements yield no marker. -/
theorem C8_django_nested_class :
    locate
        ["class Car(models.Model):",
         "    name = models.CharField(max_length=20)",
         "    default_parts = models.ManyToManyField(Part)",
         "    optional_parts = models.ManyToManyField(Part, related_name=\"cars_optional\")",
         "",
         "    class Meta:",
         "        ordering = (\"name\",)"] = [⟨0, ""⟩, ⟨5, "    "⟩] ∧
    annotate "#"
        ["class Car(models.Model):",
         "    name = models.CharField(max_length=20)",
         "    default_parts = models.ManyToManyField(Part)",
         "    optional_parts = models.ManyToManyField(Part, related_name=\"cars_optional\")",
         "",
         "    class Meta:",
         "        ordering = (\"name\",)"] =
      ["# [TODO]",
       "class Car(models.Model):",
       "    name = models.CharField(max_length=20)",
       "    default_parts = models.ManyToManyField(Part)",
       "    optional_parts = models.ManyToManyField(Part, related_name=\"cars_optional\")",
       "",
       "    # [TODO]",
       "    class Meta:",
       "        ordering = (\"name\",)"] :=
  ⟨by decide, by decide⟩

/-- C9: on the fixture of a docstring-carrying class with two decorated
methods, the pipeline yields exactly three sites — the class and, for each
decorated method, a site anchored at the first decorator's line (3 and 7)
rather than the `def` line (4 and 8) — the docstring suppresses nothing, and
the annotated output matches the expected text. -/
theorem C9_decorated_methods :
    locate
        ["class Choices(enum.Enum, metaclass=ChoicesMeta):",
         "    \"\"\"Class for creating enumerated choices.\"\"\"",
         "",
         "    @DynamicClassAttribute",
         "    def label(self):",
         "        return self._label_",
         "",
         "    @property",
         "    def do_not_call_in_templates(self):",
         "        return True"] = [⟨0, ""⟩, ⟨3, "    "⟩, ⟨7, "    "⟩] ∧
    annotate "#"
        ["class Choices(enum.Enum, metaclass=ChoicesMeta):",
         "    \"\"\"Class for creating enumerated choices.\"\"\"",
         "",
         "    @DynamicClassAttribute",
         "    def label(self):",
         "        return self._label_",
         "",
         "    @property",
         "    def do_not_call_in_templates(self):",
         "        return True"] =
      ["# [TODO]",
       "class Choices(enum.Enum, metaclass=ChoicesMeta):",
       "    \"\"\"Class for creating enumerated choices.\"\"\"",
       "",
       "    # [TODO]",
       "    @DynamicClassAttribute",
       "    def label(self):",
       "        return self._label_",
       "",
       "    # [TODO]",
       "    @property",
       "    def do_not_call_in_templates(self):",
       "        return True"] :=
  ⟨by decide, by decide⟩

/-- C10: the `CONFIG_FILE` cell is written at most once per process — after
a first call of the embedded `initialize_config_file` with path `p1`, a
later call with a different path `p2` leaves the state, and hence the value
returned by `config_file`, unchanged at the path determined by the first
call. -/
theorem C10_config_file_set_once (env : Env) (p1 p2 : Path) (st₁ st₂ : Option Path)
    (_hne : p2 ≠ p1)
    (h1 : init_config_file env (some p1) none = some st₁)
    (h2 : init_config_file env (some p2) st₁ = some st₂) :
    st₂ = st₁ ∧ config_file env st₂ = some p1 ∧
      config_file env st₂ = config_file env st₁ := by
  have hcomp1 : init_config_file env (some p1) none = some (some p1) := rfl
  have e1 : st₁ = some p1 := Option.some.inj (h1.symm.trans hcomp1)
  subst e1
  have hcomp2 : init_config_file env (some p2) (some p1) = some (some p1) := rfl
  have e2 : st₂ = some p1 := Option.some.inj (h2.symm.trans hcomp2)
  subst e2
  exact ⟨rfl, rfl, rfl⟩

/-- C10 witness: two successive calls with distinct concrete paths. -/
theorem C10_config_file_set_once_witness :
    (["b"] : Path) ≠ ["a"] ∧
    config_file ⟨none, none, none, none, none⟩ (some ["a"]) = some ["a"] :=
  ⟨by decide,
    (C10_config_file_set_once ⟨none, none, none, none, none⟩ ["a"] ["b"]
      (some ["a"]) (some ["a"]) (by decide) rfl rfl).2.1⟩

end Balpan
